import Mathlib

/-!
Verification of the issue-backup repository: a shallow embedding of the two
batch jobs `fetch_issues.py` (incremental fetcher with a watermark store) and
`compose_threads.py` (markdown composer with a content-hash store), together
with proofs about the incremental-synchronization behaviour.

Modelling conventions:
* Python strings are Lean `String`s; Python's `<=` on strings (lexicographic
  on code points) is embedded as `strLe` / `pyStrLe`.
* Python dicts used as string-keyed stores are association lists with
  insert-or-replace update (`insertEntry`) and first-match lookup
  (`lookupEntry`), preserving Python's insertion-order semantics.
* HTTP and filesystem effects are made explicit: HTTP responses are inputs
  (scripts of page results, a comment-fetch outcome per issue) and file
  writes are outputs (lists of write events).  `sys.exit(1)` is modelled by
  an explicit fatal outcome that discards the in-memory store, since the
  store file is only written by `save_metadata` at the very end of `main`.
-/

/-- Python string `<=` on lists of characters: lexicographic comparison of
code points, as used by `issue['updated_at'] <= last_updated`. -/
def strLe : List Char → List Char → Bool
  | [], _ => true
  | _ :: _, [] => false
  | c :: cs, d :: ds =>
    if c.toNat = d.toNat then strLe cs ds else decide (c.toNat < d.toNat)

/-- Python string `<=` on strings. -/
def pyStrLe (a b : String) : Bool :=
  strLe a.data b.data

theorem strLe_refl (l : List Char) : strLe l l = true := by
  induction l with
  | nil => rfl
  | cons c cs ih => simp [strLe, ih]

theorem strLe_total (x y : List Char) (h : strLe x y = false) :
    strLe y x = true := by
  induction x generalizing y with
  | nil => simp [strLe] at h
  | cons c cs ih =>
    cases y with
    | nil => simp [strLe]
    | cons d ds =>
      simp only [strLe] at h ⊢
      by_cases hcd : c.toNat = d.toNat
      · rw [if_pos hcd] at h
        rw [if_pos hcd.symm]
        exact ih ds h
      · rw [if_neg hcd] at h
        have hlt : ¬ c.toNat < d.toNat := by simpa using h
        have : d.toNat < c.toNat := by omega
        rw [if_neg (by omega)]
        simpa using this

theorem strLe_ne (x y : List Char) (h : strLe x y = false) : x ≠ y := by
  intro he
  rw [he, strLe_refl] at h
  simp at h

theorem strLe_trans (x y z : List Char) (h1 : strLe x y = true)
    (h2 : strLe y z = true) : strLe x z = true := by
  induction x generalizing y z with
  | nil => rfl
  | cons c cs ih =>
    cases y with
    | nil => simp [strLe] at h1
    | cons d ds =>
      cases z with
      | nil => simp [strLe] at h2
      | cons e es =>
        simp only [strLe] at h1 h2 ⊢
        by_cases hcd : c.toNat = d.toNat
        · rw [if_pos hcd] at h1
          by_cases hde : d.toNat = e.toNat
          · rw [if_pos hde] at h2
            rw [if_pos (hcd.trans hde)]
            exact ih ds es h1 h2
          · rw [if_neg hde] at h2
            have : d.toNat < e.toNat := by simpa using h2
            rw [if_neg (by omega)]
            simpa using (by omega : c.toNat < e.toNat)
        · rw [if_neg hcd] at h1
          have hc : c.toNat < d.toNat := by simpa using h1
          by_cases hde : d.toNat = e.toNat
          · rw [if_pos hde] at h2
            rw [if_neg (by omega)]
            simpa using (by omega : c.toNat < e.toNat)
          · rw [if_neg hde] at h2
            have hd : d.toNat < e.toNat := by simpa using h2
            rw [if_neg (by omega)]
            simpa using (by omega : c.toNat < e.toNat)

theorem pyStrLe_refl (s : String) : pyStrLe s s = true :=
  strLe_refl s.data

theorem pyStrLe_total (a b : String) (h : pyStrLe a b = false) :
    pyStrLe b a = true :=
  strLe_total a.data b.data h

theorem pyStrLe_ne (a b : String) (h : pyStrLe a b = false) : a ≠ b := by
  intro he
  exact strLe_ne a.data b.data h (congrArg String.data he)

theorem pyStrLe_trans (a b c : String) (h1 : pyStrLe a b = true)
    (h2 : pyStrLe b c = true) : pyStrLe a c = true :=
  strLe_trans a.data b.data c.data h1 h2

/-! ### String-keyed stores (Python dicts) -/

/-- Lookup in a string-keyed association list (`key in d` / `d[key]`). -/
def lookupEntry {α : Type} : List (String × α) → String → Option α
  | [], _ => none
  | (k, v) :: rest, key => if k = key then some v else lookupEntry rest key

/-- Insert-or-replace update of a string-keyed association list
(`d[key] = value`); preserves Python's dict insertion order. -/
def insertEntry {α : Type} : List (String × α) → String → α → List (String × α)
  | [], key, value => [(key, value)]
  | (k, v) :: rest, key, value =>
    if k = key then (key, value) :: rest else (k, v) :: insertEntry rest key value

theorem lookupEntry_insert_self {α : Type} (l : List (String × α)) (k : String)
    (v : α) : lookupEntry (insertEntry l k v) k = some v := by
  induction l with
  | nil => simp [insertEntry, lookupEntry]
  | cons p rest ih =>
    obtain ⟨k0, v0⟩ := p
    by_cases h : k0 = k
    · simp [insertEntry, h, lookupEntry]
    · simp [insertEntry, h, lookupEntry, ih]

theorem lookupEntry_insert_ne {α : Type} (l : List (String × α)) (k k' : String)
    (v : α) (h : k' ≠ k) :
    lookupEntry (insertEntry l k v) k' = lookupEntry l k' := by
  have hne : k ≠ k' := fun he => h he.symm
  induction l with
  | nil => simp [insertEntry, lookupEntry, hne]
  | cons p rest ih =>
    obtain ⟨k0, v0⟩ := p
    by_cases h0 : k0 = k
    · subst h0
      simp [insertEntry, lookupEntry, hne]
    · simp only [insertEntry, if_neg h0, lookupEntry]
      by_cases h1 : k0 = k'
      · simp [h1]
      · simp [h1, ih]

/-! ### Fetcher (`fetch_issues.py`) -/

/-- The fields of an API issue object that `fetch_issues.py` reads
(`number`, `title`, `updated_at`, `comments`, `comments_url`); the whole
payload is what gets dumped to `issue.json`. -/
structure Issue where
  number : Nat
  title : String
  updated_at : String
  comments : Nat
  comments_url : String
deriving DecidableEq

/-- A raw comment object as returned by the comments endpoint; the fetcher
never inspects its fields, it only dumps the list to `comments.json`. -/
structure RawComment where
  bytes : List Nat
deriving DecidableEq

/-- One value of the per-issue watermark map: the recorded `updated_at`
watermark and the storage path. -/
structure IssueMeta where
  updated_at : String
  path : String
deriving DecidableEq

/-- The watermark store `.fetch_metadata.json`: the global `last_fetch`
timestamp plus the per-issue map keyed by `"{label}/{issue_id}"`. -/
structure Metadata where
  last_fetch : String
  issues : List (String × IssueMeta)
deriving DecidableEq

/-- The fresh store returned by `load_metadata` when the store file does not
exist. -/
def default_metadata : Metadata :=
  { last_fetch := "1970-01-01T00:00:00Z", issues := [] }

/-- Embedding of `load_metadata`: read the store file if present, else the default. -/
def load_metadata (file : Option Metadata) : Metadata :=
  file.getD default_metadata

/-- Outcome of the HTTP GET performed by `fetch_comments`. -/
inductive HttpResult where
  | ok (comments : List RawComment)
  | requestError
  | decodeError
deriving DecidableEq

/-- Embedding of `fetch_comments`: returns the decoded comment list on success and `[]`
on a transport (`RequestException`) or JSON decode error, which is logged
and swallowed. -/
def fetch_comments : HttpResult → List RawComment
  | .ok comments => comments
  | .requestError => []
  | .decodeError => []

/-- Character class of the regex token `[\w-]`: ASCII word characters or a
hyphen. -/
def isSlugChar (c : Char) : Bool :=
  c.isAlphanum || c = '_' || c = '-'

/-- Leftmost match of the regex `\[([\w-]+)\]` (the scan that
`re.search` performs): at each `[` try a maximal nonempty run of slug
characters followed by `]`, else resume one position further on. -/
def findSlugToken : List Char → Option (List Char)
  | [] => none
  | c :: rest =>
    if c = '[' then
      let tok := rest.takeWhile isSlugChar
      if tok.isEmpty then findSlugToken rest
      else
        match rest.drop tok.length with
        | ']' :: _ => some tok
        | _ => findSlugToken rest
    else findSlugToken rest

/-- Embedding of `extract_slug`: the first bracketed token of the title, or the sentinel
`"unknown"`. -/
def extract_slug (title : String) : String :=
  match findSlugToken title.data with
  | some tok => String.mk tok
  | none => "unknown"

/-- The target directory `f"{label}/{slug}/{issue_id}"` for an issue. -/
def issueDirectory (issue : Issue) (label : String) : String :=
  label ++ "/" ++ extract_slug issue.title ++ "/" ++ toString issue.number

/-- The incrementality check at the top of `process_issue`: skip when the
watermark map has an entry for `"{label}/{issue_id}"` and the remote
`updated_at` is `<=` (Python string comparison) the recorded one. -/
def skipCheck (issue : Issue) (label : String) (md : Metadata) : Bool :=
  match lookupEntry md.issues (label ++ "/" ++ toString issue.number) with
  | some entry => pyStrLe issue.updated_at entry.updated_at
  | none => false

/-- A filesystem side effect of the fetcher. -/
inductive FsWrite where
  | mkdirs (dir : String)
  | issueJson (path : String) (issue : Issue)
  | commentsJson (path : String) (comments : List RawComment)
deriving DecidableEq

/-- Embedding of `process_issue`: skip entirely when the watermark says the issue is
unchanged; otherwise create the directory, dump `issue.json`, fetch and dump
`comments.json` when the issue reports comments and the fetch yields a
nonempty list, and finally update the watermark entry.  Returns the updated
in-memory store and the file writes performed. -/
def process_issue (fetchOutcome : HttpResult) (issue : Issue) (label : String)
    (md : Metadata) : Metadata × List FsWrite :=
  let issue_id := toString issue.number
  let issue_key := label ++ "/" ++ issue_id
  if skipCheck issue label md then (md, [])
  else
    let directory := issueDirectory issue label
    let issueWrites : List FsWrite :=
      [.mkdirs directory, .issueJson (directory ++ "/issue.json") issue]
    let commentWrites : List FsWrite :=
      if 0 < issue.comments then
        let comments := fetch_comments fetchOutcome
        if comments.isEmpty then []
        else [.commentsJson (directory ++ "/comments.json") comments]
      else []
    let md' : Metadata :=
      { md with
        issues := insertEntry md.issues issue_key ⟨issue.updated_at, directory⟩ }
    (md', issueWrites ++ commentWrites)

/-- One page of the paginated issue query, as the API answers it: a decoded
batch (each issue paired with the outcome its comment fetch would have), or
one of the error responses that `fetch_and_process_issues` turns into
`sys.exit(1)`. -/
inductive PageResult where
  | ok (issues : List (Issue × HttpResult))
  | unauthorized
  | forbidden
  | requestError
  | decodeError
deriving DecidableEq

/-- Result of processing one label: normal completion with the updated store,
accumulated writes and processed count, or a fatal `sys.exit(1)`. -/
inductive LabelOutcome where
  | ok (md : Metadata) (writes : List FsWrite) (count : Nat)
  | fatal (writes : List FsWrite)
deriving DecidableEq

/-- The `for issue in batch` loop body: `process_issue` over a page. -/
def processBatch (label : String) :
    List (Issue × HttpResult) → Metadata → Metadata × List FsWrite
  | [], md => (md, [])
  | (issue, fc) :: rest, md =>
    let r1 := process_issue fc issue label md
    let r2 := processBatch label rest r1.1
    (r2.1, r1.2 ++ r2.2)

/-- The `while True` pagination loop of `fetch_and_process_issues`: consume
page results in order until an empty batch (`break`) or an error response
(fatal exit).  `none` models the loop never reaching an empty page (in the
source it would keep requesting further pages forever). -/
def runPages (label : String) : List PageResult → Metadata → Option LabelOutcome
  | [], _ => none
  | .ok [] :: _, md => some (.ok md [] 0)
  | .ok issues :: rest, md =>
    let r1 := processBatch label issues md
    match runPages label rest r1.1 with
    | none => none
    | some (.ok md2 w2 n) => some (.ok md2 (r1.2 ++ w2) (issues.length + n))
    | some (.fatal w2) => some (.fatal (r1.2 ++ w2))
  | .unauthorized :: _, _ => some (.fatal [])
  | .forbidden :: _, _ => some (.fatal [])
  | .requestError :: _, _ => some (.fatal [])
  | .decodeError :: _, _ => some (.fatal [])

/-- The `for label in VALID_LABELS` loop of `main`: each label is paired with
the script of pages the API would serve for it.  A fatal exit while one label
is being processed terminates the whole process. -/
def fetchLabels : List (String × List PageResult) → Metadata → Option LabelOutcome
  | [], md => some (.ok md [] 0)
  | (label, pages) :: rest, md =>
    match runPages label pages md with
    | none => none
    | some (.fatal w) => some (.fatal w)
    | some (.ok md1 w1 n1) =>
      match fetchLabels rest md1 with
      | none => none
      | some (.fatal w2) => some (.fatal (w1 ++ w2))
      | some (.ok md2 w2 n2) => some (.ok md2 (w1 ++ w2) (n1 + n2))

/-- Observable outcome of one invocation of the fetcher's `main`: the content
of the watermark-store file afterwards, whether the process exited nonzero,
and the issue-directory writes it performed. -/
structure FetchRun where
  storeFileAfter : Option Metadata
  exitedNonzero : Bool
  writes : List FsWrite
deriving DecidableEq

/-- Embedding of `main`: load the store, process every label, and only if no label exited
fatally set `last_fetch` to the current time and rewrite the store file
(`save_metadata` is only reached at the end of `main`; `sys.exit(1)` inside
`fetch_and_process_issues` terminates the process before it). -/
def mainRun (file : Option Metadata) (labels : List (String × List PageResult))
    (now : String) : Option FetchRun :=
  match fetchLabels labels (load_metadata file) with
  | none => none
  | some (.fatal w) => some ⟨file, true, w⟩
  | some (.ok md w _) => some ⟨some { md with last_fetch := now }, false, w⟩

/-- Embedding of `label.split(',')`: split a character list at every comma. -/
def splitOnComma : List Char -> List (List Char)
  | [] => [[]]
  | c :: rest =>
    if c = ',' then [] :: splitOnComma rest
    else
      match splitOnComma rest with
      | [] => [[c]]
      | part :: parts => (c :: part) :: parts

/-- Embedding of `label.strip()`: drop leading and trailing whitespace. -/
def stripChars (l : List Char) : List Char :=
  ((l.dropWhile Char.isWhitespace).reverse.dropWhile Char.isWhitespace).reverse

/-- Embedding of `get_valid_labels`: the comma-separated `VALID_LABELS` environment
variable, each component stripped; `none` models the fatal startup error when
the variable is absent or empty (the Python set is modelled as the list of
stripped components). -/
def get_valid_labels (env : Option String) : Option (List String) :=
  match env with
  | none => none
  | some env_labels =>
    if env_labels = "" then none
    else some ((splitOnComma env_labels.data).map (fun p => String.mk (stripChars p)))

/-! ### Composer (`compose_threads.py`) -/

/-- The `user` object of an issue or comment record. -/
structure GhUser where
  login : String
deriving DecidableEq

/-- An element of the `labels` array of an issue record. -/
structure GhLabel where
  name : String
deriving DecidableEq

/-- The fields of `issue.json` that `compose_thread` reads.  `body` is
`Option String` because the JSON field can be `null`. -/
structure IssueRec where
  title : String
  user : GhUser
  created_at : String
  state : String
  labels : List GhLabel
  body : Option String
deriving DecidableEq

/-- The fields of one element of `comments.json` that `compose_thread`
reads. -/
structure CommentRec where
  user : GhUser
  created_at : String
  body : Option String
deriving DecidableEq

/-- Numeric value of an ASCII digit character. -/
def digitNat (c : Char) : Nat :=
  c.toNat - 48

/-- February 29 exists exactly in leap years, as `datetime.strptime` validates. -/
def isLeapYear (y : Nat) : Bool :=
  (y % 4 = 0 && y % 100 ≠ 0) || y % 400 = 0

/-- Number of days of a month, used to validate the day field. -/
def daysInMonth (y m : Nat) : Nat :=
  if m = 2 then (if isLeapYear y then 29 else 28)
  else if m = 4 ∨ m = 6 ∨ m = 9 ∨ m = 11 then 30
  else 31

/-- Embedding of `format_date`: `datetime.strptime(s, "%Y-%m-%dT%H:%M:%SZ")` followed by
`strftime("%Y-%m-%d %H:%M:%S UTC")`.  `none` models the `ValueError` raised
on any input that does not parse as the fixed wire format (the spec fixes
the input to the zero-padded `YYYY-MM-DDTHH:MM:SSZ` shape; `strptime`
validates the calendar ranges, including leap years and leap seconds). -/
def format_date (date_str : String) : Option String :=
  match date_str.data with
  | [y3, y2, y1, y0, c1, mo1, mo0, c2, d1, d0, c3, h1, h0, c4, n1, n0, c5, s1, s0, c6] =>
    if c1 = '-' ∧ c2 = '-' ∧ c3 = 'T' ∧ c4 = ':' ∧ c5 = ':' ∧ c6 = 'Z' ∧
        y3.isDigit ∧ y2.isDigit ∧ y1.isDigit ∧ y0.isDigit ∧
        mo1.isDigit ∧ mo0.isDigit ∧ d1.isDigit ∧ d0.isDigit ∧
        h1.isDigit ∧ h0.isDigit ∧ n1.isDigit ∧ n0.isDigit ∧
        s1.isDigit ∧ s0.isDigit then
      let y := digitNat y3 * 1000 + digitNat y2 * 100 + digitNat y1 * 10 + digitNat y0
      let mo := digitNat mo1 * 10 + digitNat mo0
      let d := digitNat d1 * 10 + digitNat d0
      let h := digitNat h1 * 10 + digitNat h0
      let n := digitNat n1 * 10 + digitNat n0
      let s := digitNat s1 * 10 + digitNat s0
      if 1 ≤ mo ∧ mo ≤ 12 ∧ 1 ≤ d ∧ d ≤ daysInMonth y mo ∧ h ≤ 23 ∧ n ≤ 59 ∧ s ≤ 61 then
        some (String.mk [y3, y2, y1, y0, '-', mo1, mo0, '-', d1, d0, ' ',
                         h1, h0, ':', n1, n0, ':', s1, s0] ++ " UTC")
      else none
    else none
  | _ => none

/-- The ruler `"="*80`. -/
def eq80 : String := String.mk (List.replicate 80 '=')

/-- The ruler `"-"*80`. -/
def dash80 : String := String.mk (List.replicate 80 '-')

/-- The ruler `"-"*40`. -/
def dash40 : String := String.mk (List.replicate 40 '-')

/-- The three entries appended to the thread list for one comment.  Entries
are `Option String`: `none` stands for a value that is not a string (a `null`
body) or an f-string whose `format_date` call raises. -/
def commentLines (c : CommentRec) : List (Option String) :=
  [(format_date c.created_at).map
      (fun fd => "\nOn " ++ fd ++ ", " ++ c.user.login ++ " wrote:"),
   some dash40,
   c.body]

/-- Concatenation of the per-comment entries, `for comment in comments`. -/
def allCommentLines : List CommentRec → List (Option String)
  | [] => []
  | c :: rest => commentLines c ++ allCommentLines rest

/-- The `thread` list that `compose_thread` builds: header block, separator,
the issue body under `INITIAL POST:`, and the `COMMENTS:` section only when a
comments file exists (`commentsRec = some _`) and decodes to a nonempty
list. -/
def renderLines (issue : IssueRec) (commentsRec : Option (List CommentRec)) :
    List (Option String) :=
  [some ("Title: " ++ issue.title),
   (format_date issue.created_at).map
     (fun fd => "Created by: " ++ issue.user.login ++ " on " ++ fd),
   some ("State: " ++ issue.state),
   some ("Labels: " ++ String.intercalate ", " (issue.labels.map GhLabel.name)),
   some ("\n" ++ eq80 ++ "\n"),
   some "INITIAL POST:",
   some dash80,
   issue.body] ++
  (match commentsRec with
   | none => []
   | some comments =>
     if comments.isEmpty then []
     else [some ("\n" ++ eq80 ++ "\n"), some "COMMENTS:", some dash80] ++
          allCommentLines comments)

/-- Sequence a list of optional strings: `some` of all of them when every
entry is a string, `none` as soon as one is not (the `TypeError` that
`str.join` raises on a non-string element, or an earlier `ValueError` from
`format_date`). -/
def seqParts : List (Option String) → Option (List String)
  | [] => some []
  | none :: _ => none
  | some s :: rest => (seqParts rest).map (fun l => s :: l)

/-- Embedding of `"\n\n".join(thread)`, defined only when every element is a string. -/
def pyJoin (sep : String) (parts : List (Option String)) : Option String :=
  (seqParts parts).map (String.intercalate sep)

/-- A value of the compose content-hash store: the recorded pair
`{'issue': ..., 'comments': ...}` of hex digests. -/
structure HashPair where
  issue : String
  comments : String
deriving DecidableEq

/-- The content-hash store `.compose_metadata.json`, keyed by issue
directory path. -/
abbrev ComposeStore := List (String × HashPair)

/-- Embedding of `get_content_hash`: the digest of the file's bytes, or the sentinel `""`
when the file does not exist.  The SHA-256 digest itself is abstracted as the
function argument `hash`. -/
def get_content_hash (hash : List Nat → String) (file : Option (List Nat)) : String :=
  match file with
  | none => ""
  | some bytes => hash bytes

/-- The `current_hashes` dict computed at the top of `compose_thread`, a
function of the raw bytes of `issue.json` and `comments.json` only. -/
def currentHashes (hash : List Nat → String) (issueBytes : List Nat)
    (commentBytes : Option (List Nat)) : HashPair :=
  ⟨get_content_hash hash (some issueBytes), get_content_hash hash commentBytes⟩

/-- On-disk content of one issue directory that holds an `issue.json`:
its raw bytes and parsed record, and the bytes and parsed records of
`comments.json` when that file exists. -/
structure IssueDir where
  issueBytes : List Nat
  issue : IssueRec
  comments : Option (List Nat × List CommentRec)
deriving DecidableEq

/-- The `current_hashes` pair for a directory's files. -/
def dirHashes (hash : List Nat → String) (files : IssueDir) : HashPair :=
  currentHashes hash files.issueBytes (files.comments.map Prod.fst)

/-- Result of one `compose_thread` call: a silent skip, a composed thread
written to `thread.md` together with the updated store, or an uncaught
exception (which aborts the whole compose run). -/
inductive CResult where
  | skipped
  | composed (md : ComposeStore) (output : String)
  | error
deriving DecidableEq

/-- Embedding of `compose_thread`: hash the two files, skip silently when the store has a
matching pair for this directory, otherwise render the thread and update the
store entry to the fresh pair.  Rendering fails (uncaught exception, nothing
composed, store not mutated) when a timestamp does not parse or a body is
`null`. -/
def compose_thread (hash : List Nat → String) (directory : String)
    (files : IssueDir) (md : ComposeStore) : CResult :=
  let current := dirHashes hash files
  let skip : Bool :=
    match lookupEntry md directory with
    | some old => decide (old = current)
    | none => false
  if skip then .skipped
  else
    match pyJoin "\n\n" (renderLines files.issue (files.comments.map Prod.snd)) with
    | none => .error
    | some out => .composed (insertEntry md directory current) out

/-- A directory entry of a slug directory as `os.listdir` reports it:
its name, whether it is a directory, and (when it is an issue directory)
whether it contains an `issue.json` and with what content. -/
structure FsIssueEntry where
  name : String
  isDir : Bool
  files : Option IssueDir
deriving DecidableEq

/-- A directory entry of a label root. -/
structure FsSlugEntry where
  name : String
  isDir : Bool
  issues : List FsIssueEntry
deriving DecidableEq

/-- A top-level label directory present on disk. -/
structure FsLabelRoot where
  label : String
  slugs : List FsSlugEntry
deriving DecidableEq

/-- The directory tree the composer walks: the label roots that exist. -/
abbrev Disk := List FsLabelRoot

/-- Accumulated state of the walk in `process_all_threads`: whether an
exception aborted it, the in-memory store, the `thread.md` writes
`(path, content)`, the directories on which `compose_thread` was invoked
(in order), and the `processed` counter. -/
structure LoopOut where
  aborted : Bool
  md : ComposeStore
  writes : List (String × String)
  checked : List String
  processed : Nat
deriving DecidableEq

/-- The `for issue_id in os.listdir(slug_path)` loop: for each subdirectory
that contains an `issue.json`, invoke `compose_thread` and count it.  An
exception in `compose_thread` aborts the walk. -/
def issueLoop (hash : List Nat → String) (slugPath : String) :
    List FsIssueEntry → ComposeStore → LoopOut
  | [], md => ⟨false, md, [], [], 0⟩
  | e :: rest, md =>
    if e.isDir then
      match e.files with
      | some files =>
        let path := slugPath ++ "/" ++ e.name
        match compose_thread hash path files md with
        | .error => ⟨true, md, [], [path], 0⟩
        | .skipped =>
          let r := issueLoop hash slugPath rest md
          ⟨r.aborted, r.md, r.writes, path :: r.checked, r.processed + 1⟩
        | .composed md2 out =>
          let r := issueLoop hash slugPath rest md2
          ⟨r.aborted, r.md, (path ++ "/thread.md", out) :: r.writes,
           path :: r.checked, r.processed + 1⟩
      | none => issueLoop hash slugPath rest md
    else issueLoop hash slugPath rest md

/-- The `for slug in os.listdir(label)` loop. -/
def slugLoop (hash : List Nat → String) (label : String) :
    List FsSlugEntry → ComposeStore → LoopOut
  | [], md => ⟨false, md, [], [], 0⟩
  | s :: rest, md =>
    if s.isDir then
      let r1 := issueLoop hash (label ++ "/" ++ s.name) s.issues md
      if r1.aborted then r1
      else
        let r2 := slugLoop hash label rest r1.md
        ⟨r2.aborted, r2.md, r1.writes ++ r2.writes, r1.checked ++ r2.checked,
         r1.processed + r2.processed⟩
    else slugLoop hash label rest md

/-- The `for label in ['faro', 'app-o11y']` loop: a label whose root does
not exist on disk is skipped with `continue`. -/
def labelLoop (hash : List Nat → String) (disk : Disk) :
    List String → ComposeStore → LoopOut
  | [], md => ⟨false, md, [], [], 0⟩
  | l :: rest, md =>
    match disk.find? (fun root => root.label = l) with
    | none => labelLoop hash disk rest md
    | some root =>
      let r1 := slugLoop hash l root.slugs md
      if r1.aborted then r1
      else
        let r2 := labelLoop hash disk rest r1.md
        ⟨r2.aborted, r2.md, r1.writes ++ r2.writes, r1.checked ++ r2.checked,
         r1.processed + r2.processed⟩

/-- The two label roots hardcoded in `process_all_threads`. -/
def hardcodedLabels : List String := ["faro", "app-o11y"]

/-- Embedding of `load_compose_metadata`: the store file if present, else `{}`. -/
def load_compose_metadata (file : Option ComposeStore) : ComposeStore :=
  file.getD []

/-- Observable outcome of one composer invocation. -/
structure ComposeRun where
  aborted : Bool
  store : ComposeStore
  storeFileAfter : Option ComposeStore
  writes : List (String × String)
  checked : List String
  processed : Nat
deriving DecidableEq

/-- Embedding of `process_all_threads` (the composer's `main`): load the store, walk the
hardcoded label roots, and rewrite the store file via
`save_compose_metadata` only when the walk finishes without an exception. -/
def process_all_threads (hash : List Nat → String) (disk : Disk)
    (file : Option ComposeStore) : ComposeRun :=
  let md := load_compose_metadata file
  let r := labelLoop hash disk hardcodedLabels md
  ⟨r.aborted, r.md, if r.aborted then file else some r.md, r.writes,
   r.checked, r.processed⟩

/-- Linearization of one slug directory's walk: the qualifying issue
directories (a directory entry containing an `issue.json`) with their
contents, in walk order. -/
def issueTargets (slugPath : String) : List FsIssueEntry → List (String × IssueDir)
  | [] => []
  | e :: rest =>
    if e.isDir then
      match e.files with
      | some files => (slugPath ++ "/" ++ e.name, files) :: issueTargets slugPath rest
      | none => issueTargets slugPath rest
    else issueTargets slugPath rest

/-- Linearization of one label root's walk. -/
def slugTargets (label : String) : List FsSlugEntry → List (String × IssueDir)
  | [] => []
  | s :: rest =>
    (if s.isDir then issueTargets (label ++ "/" ++ s.name) s.issues else []) ++
      slugTargets label rest

/-- Linearization of the whole walk over a list of label roots. -/
def labelTargets (disk : Disk) : List String → List (String × IssueDir)
  | [] => []
  | l :: rest =>
    (match disk.find? (fun root => root.label = l) with
     | none => []
     | some root => slugTargets l root.slugs) ++ labelTargets disk rest

/-- The issue directories a composer run visits: those under the hardcoded
label roots, in walk order. -/
def composeTargetPairs (disk : Disk) : List (String × IssueDir) :=
  labelTargets disk hardcodedLabels

/-- The walk as a single left-to-right pass over its linearization. -/
def runList (hash : List Nat → String) :
    List (String × IssueDir) → ComposeStore → LoopOut
  | [], md => ⟨false, md, [], [], 0⟩
  | (path, files) :: rest, md =>
    match compose_thread hash path files md with
    | .error => ⟨true, md, [], [path], 0⟩
    | .skipped =>
      let r := runList hash rest md
      ⟨r.aborted, r.md, r.writes, path :: r.checked, r.processed + 1⟩
    | .composed md2 out =>
      let r := runList hash rest md2
      ⟨r.aborted, r.md, (path ++ "/thread.md", out) :: r.writes,
       path :: r.checked, r.processed + 1⟩

theorem compose_skipped_iff (hash : List Nat → String) (directory : String)
    (files : IssueDir) (md : ComposeStore) :
    compose_thread hash directory files md = .skipped ↔
      lookupEntry md directory = some (dirHashes hash files) := by
  simp only [compose_thread]
  cases h : lookupEntry md directory with
  | none =>
    cases hj : pyJoin "\n\n" (renderLines files.issue (files.comments.map Prod.snd)) <;>
      simp [hj]
  | some old =>
    by_cases he : old = dirHashes hash files
    · simp [he]
    · cases hj : pyJoin "\n\n" (renderLines files.issue (files.comments.map Prod.snd)) <;>
        simp [hj, he]

theorem compose_composed_store (hash : List Nat → String) (directory : String)
    (files : IssueDir) (md md2 : ComposeStore) (out : String)
    (h : compose_thread hash directory files md = .composed md2 out) :
    md2 = insertEntry md directory (dirHashes hash files) := by
  simp only [compose_thread] at h
  cases hl : lookupEntry md directory with
  | none =>
    rw [hl] at h
    cases hj : pyJoin "\n\n" (renderLines files.issue (files.comments.map Prod.snd)) with
    | none => rw [hj] at h; simp at h
    | some o => rw [hj] at h; simp at h; exact h.1.symm
  | some old =>
    rw [hl] at h
    by_cases he : old = dirHashes hash files
    · simp [he] at h
    · rw [if_neg (by simp [he])] at h
      cases hj : pyJoin "\n\n" (renderLines files.issue (files.comments.map Prod.snd)) with
      | none => rw [hj] at h; simp at h
      | some o => rw [hj] at h; simp at h; exact h.1.symm

theorem runList_append (hash : List Nat → String)
    (xs ys : List (String × IssueDir)) (md : ComposeStore) :
    runList hash (xs ++ ys) md =
      (let r1 := runList hash xs md
       if r1.aborted then r1
       else
         let r2 := runList hash ys r1.md
         ⟨r2.aborted, r2.md, r1.writes ++ r2.writes, r1.checked ++ r2.checked,
          r1.processed + r2.processed⟩) := by
  induction xs generalizing md with
  | nil => simp [runList]
  | cons p rest ih =>
    obtain ⟨path, files⟩ := p
    simp only [List.cons_append, runList]
    cases hc : compose_thread hash path files md with
    | error => simp
    | skipped =>
      simp only [List.append_eq]
      rw [ih]
      by_cases hab : (runList hash rest md).aborted
      · simp [hab]
      · simp [hab, List.cons_append, List.append_assoc, LoopOut.mk.injEq,
          Nat.add_assoc, Nat.add_comm, Nat.add_left_comm]
    | composed md2 out =>
      simp only [List.append_eq]
      rw [ih]
      by_cases hab : (runList hash rest md2).aborted
      · simp [hab]
      · simp [hab, List.cons_append, List.append_assoc, LoopOut.mk.injEq,
          Nat.add_assoc, Nat.add_comm, Nat.add_left_comm]

theorem issueLoop_eq_runList (hash : List Nat → String) (slugPath : String)
    (entries : List FsIssueEntry) (md : ComposeStore) :
    issueLoop hash slugPath entries md =
      runList hash (issueTargets slugPath entries) md := by
  induction entries generalizing md with
  | nil => rfl
  | cons e rest ih =>
    by_cases hd : e.isDir
    · cases hf : e.files with
      | none => simp [issueLoop, issueTargets, hd, hf, ih]
      | some files =>
        simp only [issueLoop, issueTargets, hd, hf, if_true, runList]
        cases hc : compose_thread hash (slugPath ++ "/" ++ e.name) files md <;>
          simp [ih]
    · simp [issueLoop, issueTargets, hd, ih]

theorem slugLoop_eq_runList (hash : List Nat → String) (label : String)
    (slugs : List FsSlugEntry) (md : ComposeStore) :
    slugLoop hash label slugs md = runList hash (slugTargets label slugs) md := by
  induction slugs generalizing md with
  | nil => rfl
  | cons s rest ih =>
    by_cases hd : s.isDir
    · simp only [slugLoop, slugTargets, hd, if_true, runList_append,
        issueLoop_eq_runList, ih]
    · simp [slugLoop, slugTargets, hd, ih]

theorem labelLoop_eq_runList (hash : List Nat → String) (disk : Disk)
    (labels : List String) (md : ComposeStore) :
    labelLoop hash disk labels md = runList hash (labelTargets disk labels) md := by
  induction labels generalizing md with
  | nil => rfl
  | cons l rest ih =>
    cases hf : disk.find? (fun root => root.label = l) with
    | none => simp [labelLoop, labelTargets, hf, ih]
    | some root =>
      simp only [labelLoop, labelTargets, hf, runList_append,
        slugLoop_eq_runList, ih]

theorem runList_lookup_preserved (hash : List Nat → String)
    (pairs : List (String × IssueDir)) (md : ComposeStore) (p : String)
    (hp : p ∉ pairs.map Prod.fst) :
    lookupEntry (runList hash pairs md).md p = lookupEntry md p := by
  induction pairs generalizing md with
  | nil => rfl
  | cons q rest ih =>
    obtain ⟨path, files⟩ := q
    simp only [List.map_cons, List.mem_cons] at hp
    push_neg at hp
    obtain ⟨hp1, hp2⟩ := hp
    simp only [runList]
    cases hc : compose_thread hash path files md with
    | error => rfl
    | skipped => simpa using ih md hp2
    | composed md2 out =>
      have h2 := compose_composed_store hash path files md md2 out hc
      have h3 := ih md2 hp2
      simp only [] at h3 ⊢
      rw [h3, h2, lookupEntry_insert_ne md path p _ hp1]

theorem runList_complete_lookup (hash : List Nat → String)
    (pairs : List (String × IssueDir)) (md : ComposeStore)
    (hnd : (pairs.map Prod.fst).Nodup)
    (hab : (runList hash pairs md).aborted = false) :
    ∀ pf ∈ pairs,
      lookupEntry (runList hash pairs md).md pf.1 = some (dirHashes hash pf.2) := by
  induction pairs generalizing md with
  | nil => intro pf h; simp at h
  | cons q rest ih =>
    obtain ⟨path, files⟩ := q
    simp only [List.map_cons, List.nodup_cons] at hnd
    obtain ⟨hnotin, hnd2⟩ := hnd
    simp only [runList] at hab ⊢
    cases hc : compose_thread hash path files md with
    | error => simp [hc] at hab
    | skipped =>
      simp only [hc] at hab ⊢
      intro pf hpf
      rcases List.mem_cons.mp hpf with he | hm
      · subst he
        have hskip := (compose_skipped_iff hash path files md).mp hc
        have hpres := runList_lookup_preserved hash rest md path hnotin
        simpa [hpres] using hskip
      · exact ih md hnd2 hab pf hm
    | composed md2 out =>
      simp only [hc] at hab ⊢
      intro pf hpf
      rcases List.mem_cons.mp hpf with he | hm
      · subst he
        have h2 := compose_composed_store hash path files md md2 out hc
        have hpres := runList_lookup_preserved hash rest md2 path hnotin
        rw [hpres, h2, lookupEntry_insert_self]
      · exact ih md2 hnd2 hab pf hm

theorem runList_all_skip (hash : List Nat → String)
    (pairs : List (String × IssueDir)) (md : ComposeStore)
    (hall : ∀ pf ∈ pairs, lookupEntry md pf.1 = some (dirHashes hash pf.2)) :
    runList hash pairs md = ⟨false, md, [], pairs.map Prod.fst, pairs.length⟩ := by
  induction pairs with
  | nil => rfl
  | cons q rest ih =>
    obtain ⟨path, files⟩ := q
    have hskip : compose_thread hash path files md = .skipped :=
      (compose_skipped_iff hash path files md).mpr (hall (path, files) (by simp))
    have hrest := ih (fun pf h => hall pf (List.mem_cons_of_mem _ h))
    simp [runList, hskip, hrest]

theorem runList_checked (hash : List Nat → String)
    (pairs : List (String × IssueDir)) (md : ComposeStore)
    (hab : (runList hash pairs md).aborted = false) :
    (runList hash pairs md).checked = pairs.map Prod.fst ∧
      (runList hash pairs md).processed = pairs.length := by
  induction pairs generalizing md with
  | nil => simp [runList]
  | cons q rest ih =>
    obtain ⟨path, files⟩ := q
    simp only [runList] at hab ⊢
    cases hc : compose_thread hash path files md with
    | error => simp [hc] at hab
    | skipped =>
      simp only [hc] at hab ⊢
      obtain ⟨h1, h2⟩ := ih md hab
      simp [h1, h2]
    | composed md2 out =>
      simp only [hc] at hab ⊢
      obtain ⟨h1, h2⟩ := ih md2 hab
      simp [h1, h2]

/-! ### Watermark-store monotonicity infrastructure -/

/-- One store extends another monotonically: every recorded per-issue
watermark is still present and has not moved backwards (in Python's string
order, which is how the code compares `updated_at` values). -/
def storeLe (md1 md2 : Metadata) : Prop :=
  ∀ k e, lookupEntry md1.issues k = some e →
    ∃ e', lookupEntry md2.issues k = some e' ∧
      pyStrLe e.updated_at e'.updated_at = true

theorem storeLe_refl (md : Metadata) : storeLe md md :=
  fun _ e h => ⟨e, h, pyStrLe_refl _⟩

theorem storeLe_trans (md1 md2 md3 : Metadata) (h1 : storeLe md1 md2)
    (h2 : storeLe md2 md3) : storeLe md1 md3 := by
  intro k e h
  obtain ⟨e2, hl2, hle2⟩ := h1 k e h
  obtain ⟨e3, hl3, hle3⟩ := h2 k e2 hl2
  exact ⟨e3, hl3, pyStrLe_trans _ _ _ hle2 hle3⟩

theorem process_issue_md (fc : HttpResult) (issue : Issue) (label : String)
    (md : Metadata) (h : skipCheck issue label md = false) :
    (process_issue fc issue label md).1 =
      { md with
        issues := insertEntry md.issues (label ++ "/" ++ toString issue.number)
          ⟨issue.updated_at, issueDirectory issue label⟩ } := by
  simp [process_issue, h]

theorem process_issue_storeLe (fc : HttpResult) (issue : Issue) (label : String)
    (md : Metadata) : storeLe md (process_issue fc issue label md).1 := by
  intro k e h
  by_cases hs : skipCheck issue label md
  · simp only [process_issue, hs, if_true]
    exact ⟨e, h, pyStrLe_refl _⟩
  · rw [process_issue_md fc issue label md (by simpa using hs)]
    by_cases hk : k = label ++ "/" ++ toString issue.number
    · subst hk
      have hle : pyStrLe issue.updated_at e.updated_at = false := by
        have := hs
        unfold skipCheck at this
        rw [h] at this
        simpa using this
      refine ⟨⟨issue.updated_at, issueDirectory issue label⟩, ?_, ?_⟩
      · exact lookupEntry_insert_self md.issues _ _
      · exact pyStrLe_total _ _ hle
    · refine ⟨e, ?_, pyStrLe_refl _⟩
      rw [lookupEntry_insert_ne md.issues _ k _ hk]
      exact h

theorem processBatch_storeLe (label : String)
    (batch : List (Issue × HttpResult)) (md : Metadata) :
    storeLe md (processBatch label batch md).1 := by
  induction batch generalizing md with
  | nil => exact storeLe_refl md
  | cons p rest ih =>
    obtain ⟨issue, fc⟩ := p
    simp only [processBatch]
    exact storeLe_trans _ _ _ (process_issue_storeLe fc issue label md)
      (ih (process_issue fc issue label md).1)

theorem runPages_storeLe (label : String) (pages : List PageResult)
    (md md2 : Metadata) (w : List FsWrite) (n : Nat)
    (h : runPages label pages md = some (.ok md2 w n)) : storeLe md md2 := by
  induction pages generalizing md w n with
  | nil => simp [runPages] at h
  | cons page rest ih =>
    cases page with
    | ok issues =>
      cases issues with
      | nil =>
        simp only [runPages] at h
        obtain ⟨h1, _, _⟩ := LabelOutcome.ok.inj (Option.some.inj h)
        exact h1 ▸ storeLe_refl md
      | cons i is =>
        simp only [runPages] at h
        split at h
        · exact absurd h (by simp)
        · rename_i md3 w2 n2 hr
          obtain ⟨h1, _, _⟩ := LabelOutcome.ok.inj (Option.some.inj h)
          subst h1
          exact storeLe_trans _ _ _
            (processBatch_storeLe label (i :: is) md) (ih _ _ _ hr)
        · exact absurd h (by simp)
    | unauthorized => simp [runPages] at h
    | forbidden => simp [runPages] at h
    | requestError => simp [runPages] at h
    | decodeError => simp [runPages] at h

theorem fetchLabels_storeLe (labels : List (String × List PageResult))
    (md md2 : Metadata) (w : List FsWrite) (n : Nat)
    (h : fetchLabels labels md = some (.ok md2 w n)) : storeLe md md2 := by
  induction labels generalizing md w n with
  | nil =>
    simp only [fetchLabels] at h
    obtain ⟨h1, _, _⟩ := LabelOutcome.ok.inj (Option.some.inj h)
    exact h1 ▸ storeLe_refl md
  | cons p rest ih =>
    obtain ⟨label, pages⟩ := p
    simp only [fetchLabels] at h
    split at h
    · exact absurd h (by simp)
    · exact absurd h (by simp)
    · rename_i md1 w1 n1 hr
      split at h
      · exact absurd h (by simp)
      · exact absurd h (by simp)
      · rename_i md3 w2 n2 hf
        obtain ⟨h1, _, _⟩ := LabelOutcome.ok.inj (Option.some.inj h)
        subst h1
        exact storeLe_trans _ _ _
          (runPages_storeLe label pages md md1 w1 n1 hr) (ih _ _ _ hf)

/-! ### Wire-format timestamps: lexicographic order vs chronological order -/

/-- Two-digit zero-padded decimal rendering of a field value below 100. -/
def pad2 (n : Nat) : List Char :=
  [Nat.digitChar (n / 10), Nat.digitChar (n % 10)]

/-- Four-digit zero-padded decimal rendering of a year below 10000. -/
def pad4 (n : Nat) : List Char :=
  pad2 (n / 100) ++ pad2 (n % 100)

/-- The characters of a timestamp in the fixed wire format
`YYYY-MM-DDTHH:MM:SSZ`. -/
def wireChars (y mo d h mi s : Nat) : List Char :=
  pad4 y ++ '-' :: (pad2 mo ++ '-' :: (pad2 d ++ 'T' ::
    (pad2 h ++ ':' :: (pad2 mi ++ ':' :: (pad2 s ++ ['Z'])))))

/-- A timestamp string in the fixed wire format. -/
def wireFormat (y mo d h mi s : Nat) : String :=
  String.mk (wireChars y mo d h mi s)

/-- Chronological key of a timestamp: field-lexicographic order on
(year, month, day, hour, minute, second), which is chronological order for
timestamps of the same calendar. -/
def timeKey (y mo d h mi s : Nat) : Nat :=
  ((((y * 100 + mo) * 100 + d) * 100 + h) * 100 + mi) * 100 + s

theorem digitChar_toNat_eq_iff : ∀ a < 10, ∀ b < 10,
    ((Nat.digitChar a).toNat = (Nat.digitChar b).toNat ↔ a = b) := by decide

theorem digitChar_toNat_lt_iff : ∀ a < 10, ∀ b < 10,
    ((Nat.digitChar a).toNat < (Nat.digitChar b).toNat ↔ a < b) := by decide

theorem strLe_pad2 (a b : Nat) (ha : a < 100) (hb : b < 100)
    (cs ds : List Char) :
    strLe (pad2 a ++ cs) (pad2 b ++ ds) =
      if a = b then strLe cs ds else decide (a < b) := by
  have h1 : a / 10 < 10 := by omega
  have h2 : b / 10 < 10 := by omega
  have h3 : a % 10 < 10 := by omega
  have h4 : b % 10 < 10 := by omega
  simp only [pad2, List.cons_append, List.nil_append, strLe]
  by_cases e1 : (Nat.digitChar (a / 10)).toNat = (Nat.digitChar (b / 10)).toNat
  · have e1' : a / 10 = b / 10 := (digitChar_toNat_eq_iff _ h1 _ h2).mp e1
    rw [if_pos e1]
    by_cases e2 : (Nat.digitChar (a % 10)).toNat = (Nat.digitChar (b % 10)).toNat
    · have e2' : a % 10 = b % 10 := (digitChar_toNat_eq_iff _ h3 _ h4).mp e2
      rw [if_pos e2, if_pos (by omega : a = b)]
      rfl
    · have e2' : ¬ a % 10 = b % 10 :=
        fun hh => e2 ((digitChar_toNat_eq_iff _ h3 _ h4).mpr hh)
      rw [if_neg e2, if_neg (by omega : ¬ a = b), decide_eq_decide,
        digitChar_toNat_lt_iff _ h3 _ h4]
      omega
  · have e1' : ¬ a / 10 = b / 10 :=
      fun hh => e1 ((digitChar_toNat_eq_iff _ h1 _ h2).mpr hh)
    rw [if_neg e1, if_neg (by omega : ¬ a = b), decide_eq_decide,
      digitChar_toNat_lt_iff _ h1 _ h2]
    omega

theorem strLe_pad4 (a b : Nat) (ha : a < 10000) (hb : b < 10000)
    (cs ds : List Char) :
    strLe (pad4 a ++ cs) (pad4 b ++ ds) =
      if a = b then strLe cs ds else decide (a < b) := by
  have h1 : a / 100 < 100 := by omega
  have h2 : b / 100 < 100 := by omega
  have h3 : a % 100 < 100 := by omega
  have h4 : b % 100 < 100 := by omega
  simp only [pad4, List.append_assoc]
  rw [strLe_pad2 _ _ h1 h2, strLe_pad2 _ _ h3 h4]
  by_cases e1 : a / 100 = b / 100
  · rw [if_pos e1]
    by_cases e2 : a % 100 = b % 100
    · rw [if_pos e2, if_pos (by omega : a = b)]
    · rw [if_neg e2, if_neg (by omega : ¬ a = b), decide_eq_decide]
      omega
  · rw [if_neg e1, if_neg (by omega : ¬ a = b), decide_eq_decide]
    omega

theorem strLe_cons_same (c : Char) (cs ds : List Char) :
    strLe (c :: cs) (c :: ds) = strLe cs ds := by
  simp [strLe]

theorem strLe_wireChars (ya ma da hra na sa yb mb db hrb nb sb : Nat)
    (b1 : ya < 10000) (b2 : ma < 100) (b3 : da < 100) (b4 : hra < 100)
    (b5 : na < 100) (b6 : sa < 100) (c1 : yb < 10000) (c2 : mb < 100)
    (c3 : db < 100) (c4 : hrb < 100) (c5 : nb < 100) (c6 : sb < 100) :
    strLe (wireChars ya ma da hra na sa) (wireChars yb mb db hrb nb sb) =
      decide (timeKey ya ma da hra na sa ≤ timeKey yb mb db hrb nb sb) := by
  simp only [wireChars]
  rw [strLe_pad4 _ _ b1 c1]
  rw [strLe_cons_same]
  rw [strLe_pad2 _ _ b2 c2]
  rw [strLe_cons_same]
  rw [strLe_pad2 _ _ b3 c3]
  rw [strLe_cons_same]
  rw [strLe_pad2 _ _ b4 c4]
  rw [strLe_cons_same]
  rw [strLe_pad2 _ _ b5 c5]
  rw [strLe_cons_same]
  rw [strLe_pad2 _ _ b6 c6]
  rw [strLe_cons_same]
  rw [show strLe ([] : List Char) [] = true from rfl]
  split_ifs <;>
    first
      | (symm; rw [decide_eq_true_eq]; simp only [timeKey]; omega)
      | (rw [decide_eq_decide]; simp only [timeKey]; omega)

theorem pyStrLe_wireFormat (ya ma da hra na sa yb mb db hrb nb sb : Nat)
    (b1 : ya < 10000) (b2 : ma < 100) (b3 : da < 100) (b4 : hra < 100)
    (b5 : na < 100) (b6 : sa < 100) (c1 : yb < 10000) (c2 : mb < 100)
    (c3 : db < 100) (c4 : hrb < 100) (c5 : nb < 100) (c6 : sb < 100) :
    pyStrLe (wireFormat ya ma da hra na sa) (wireFormat yb mb db hrb nb sb) =
      decide (timeKey ya ma da hra na sa ≤ timeKey yb mb db hrb nb sb) :=
  strLe_wireChars ya ma da hra na sa yb mb db hrb nb sb
    b1 b2 b3 b4 b5 b6 c1 c2 c3 c4 c5 c6

/-! ### Remaining helper lemmas -/

theorem seqParts_eq_none (parts : List (Option String))
    (h : (none : Option String) ∈ parts) : seqParts parts = none := by
  induction parts with
  | nil => simp at h
  | cons p rest ih =>
    cases p with
    | none => rfl
    | some s =>
      rcases List.mem_cons.mp h with he | hm
      · exact absurd he (by simp)
      · simp [seqParts, ih hm]

/-- Restatement of `process_all_threads` over the linearized walk. -/
theorem process_all_threads_eq (hash : List Nat → String) (disk : Disk)
    (file : Option ComposeStore) :
    process_all_threads hash disk file =
      ⟨(runList hash (composeTargetPairs disk) (load_compose_metadata file)).aborted,
       (runList hash (composeTargetPairs disk) (load_compose_metadata file)).md,
       if (runList hash (composeTargetPairs disk) (load_compose_metadata file)).aborted
         then file
         else some (runList hash (composeTargetPairs disk) (load_compose_metadata file)).md,
       (runList hash (composeTargetPairs disk) (load_compose_metadata file)).writes,
       (runList hash (composeTargetPairs disk) (load_compose_metadata file)).checked,
       (runList hash (composeTargetPairs disk) (load_compose_metadata file)).processed⟩ := by
  simp only [process_all_threads, composeTargetPairs, labelLoop_eq_runList]

/-! ### The claims -/

/-- Claim C1: for an issue X returned by the API for a label, if the
watermark store has an entry for the key (label, id of X) whose recorded
`last_seen_updated_at` is `T` and X's `updated_at` is not strictly greater
than `T` (Python string comparison `<=`), then `process_issue` performs no
file writes and returns the store unchanged — it skips entirely. -/
theorem claim_C1_skip_entirely (fc : HttpResult) (issue : Issue)
    (label : String) (md : Metadata) (e : IssueMeta)
    (h1 : lookupEntry md.issues (label ++ "/" ++ toString issue.number) = some e)
    (h2 : pyStrLe issue.updated_at e.updated_at = true) :
    process_issue fc issue label md = (md, []) := by
  have hs : skipCheck issue label md = true := by
    unfold skipCheck
    rw [h1]
    exact h2
  simp [process_issue, hs]

def c1Meta : Metadata :=
  ⟨"1970-01-01T00:00:00Z", [("faro/7", ⟨"2024-03-01T00:00:00Z", "faro/sdk/7"⟩)]⟩

def c1Issue : Issue := ⟨7, "[sdk] crash on init", "2024-02-01T00:00:00Z", 3, "u"⟩

/-- Witness for claim C1 at a concrete store and issue. -/
theorem claim_C1_witness :
    lookupEntry c1Meta.issues ("faro" ++ "/" ++ toString c1Issue.number) =
        some ⟨"2024-03-01T00:00:00Z", "faro/sdk/7"⟩ ∧
      pyStrLe c1Issue.updated_at "2024-03-01T00:00:00Z" = true ∧
      process_issue (.ok []) c1Issue "faro" c1Meta = (c1Meta, []) :=
  ⟨by decide, by decide,
    claim_C1_skip_entirely (.ok []) c1Issue "faro" c1Meta
      ⟨"2024-03-01T00:00:00Z", "faro/sdk/7"⟩ (by decide) (by decide)⟩

/-- Claim C8: for an issue with a nonzero comment count that is being
processed (not skipped by the watermark), a failed comment fetch (transport
or JSON decode error) does not abort the run: `issue.json` is still written,
no `comments.json` write happens, and the per-issue watermark entry is still
updated to the issue's `updated_at`. -/
theorem claim_C8_comment_failure_graceful (fc : HttpResult) (issue : Issue)
    (label : String) (md : Metadata)
    (h1 : 0 < issue.comments)
    (h2 : fc = .requestError ∨ fc = .decodeError)
    (h3 : skipCheck issue label md = false) :
    (process_issue fc issue label md).2 =
        [.mkdirs (issueDirectory issue label),
         .issueJson (issueDirectory issue label ++ "/issue.json") issue] ∧
      lookupEntry (process_issue fc issue label md).1.issues
          (label ++ "/" ++ toString issue.number) =
        some ⟨issue.updated_at, issueDirectory issue label⟩ := by
  have hfc : fetch_comments fc = [] := by
    rcases h2 with h | h <;> simp [h, fetch_comments]
  constructor
  · simp [process_issue, h3, h1, hfc]
  · have hmd := process_issue_md fc issue label md h3
    rw [hmd]
    exact lookupEntry_insert_self md.issues _ _

def c8Issue : Issue := ⟨9, "[app] leak", "2024-04-01T00:00:00Z", 2, "u"⟩

/-- Witness for claim C8 at a concrete issue whose comment fetch fails. -/
theorem claim_C8_witness :
    0 < c8Issue.comments ∧
      skipCheck c8Issue "app-o11y" default_metadata = false ∧
      (process_issue .requestError c8Issue "app-o11y" default_metadata).2 =
        [.mkdirs (issueDirectory c8Issue "app-o11y"),
         .issueJson (issueDirectory c8Issue "app-o11y" ++ "/issue.json") c8Issue] ∧
      lookupEntry (process_issue .requestError c8Issue "app-o11y"
          default_metadata).1.issues ("app-o11y" ++ "/" ++ toString c8Issue.number) =
        some ⟨c8Issue.updated_at, issueDirectory c8Issue "app-o11y"⟩ :=
  ⟨by decide, by decide,
    (claim_C8_comment_failure_graceful .requestError c8Issue "app-o11y"
        default_metadata (by decide) (Or.inl rfl) (by decide)).1,
    (claim_C8_comment_failure_graceful .requestError c8Issue "app-o11y"
        default_metadata (by decide) (Or.inl rfl) (by decide)).2⟩

def c2Issue : Issue := ⟨1, "[faro-sdk] init crash", "2024-01-05T00:00:00Z", 0, "u"⟩

def c2Labels : List (String × List PageResult) :=
  [("faro", [.ok [(c2Issue, .ok [])], .ok []]),
   ("app-o11y", [.requestError])]

/-- Counterexample to claim C2: a run that fully processes the label `faro`
(writing one issue directory) and then aborts fatally on the label
`app-o11y` leaves the watermark-store file exactly as it was (here: absent),
with `last_fetch` NOT advanced to the current time — because `sys.exit(1)`
terminates the process before `main` ever reaches `save_metadata`. -/
theorem claim_C2_counterexample :
    mainRun none c2Labels "2024-06-01T00:00:00Z" =
      some ⟨none, true,
        [.mkdirs "faro/faro-sdk/1",
         .issueJson "faro/faro-sdk/1/issue.json" c2Issue]⟩ := by
  decide

/-- Claim C2, amended: when a fetch run aborts fatally while processing any
label, the watermark-store file is not rewritten at all — it keeps its prior
contents (so `last_fetch` does not advance, and even the watermarks of
labels processed successfully earlier in the run are lost); the store, with
`last_fetch` set to the current time, is written only when every label
completes. -/
theorem claim_C2_fatal_no_store_write (file : Option Metadata)
    (labels : List (String × List PageResult)) (now : String) (r : FetchRun)
    (h : mainRun file labels now = some r) :
    (r.exitedNonzero = true → r.storeFileAfter = file) ∧
      (r.exitedNonzero = false →
        ∃ md, r.storeFileAfter = some md ∧ md.last_fetch = now) := by
  unfold mainRun at h
  split at h
  · exact absurd h (by simp)
  · rename_i w hf
    obtain rfl : FetchRun.mk file true w = r := Option.some.inj h
    refine ⟨fun _ => rfl, fun hff => absurd hff (by simp)⟩
  · rename_i md w n hf
    obtain rfl : FetchRun.mk (some { md with last_fetch := now }) false w = r :=
      Option.some.inj h
    refine ⟨fun htt => absurd htt (by simp), fun _ => ⟨_, rfl, rfl⟩⟩

def c2wRun : FetchRun := ⟨none, true, []⟩

/-- Witness for the amended claim C2 at a concrete aborting run. -/
theorem claim_C2_witness :
    mainRun none [("app-o11y", [.requestError])] "2024-06-01T00:00:00Z" =
        some c2wRun ∧
      c2wRun.storeFileAfter = none :=
  ⟨by decide,
    (claim_C2_fatal_no_store_write none [("app-o11y", [.requestError])]
        "2024-06-01T00:00:00Z" c2wRun (by decide)).1 (by decide)⟩

/-- Claim C5: the watermark store is monotonic across every fetch run.
First part: `process_issue` only ever overwrites a stored per-issue
watermark with a strictly greater value (Python string order) — otherwise
the entry is untouched.  Second part: across a whole `main` run, whatever
store file results, every previously recorded per-issue watermark is still
present and has not moved backwards, and (under the clock assumption that
the current time is not before the recorded `last_fetch`) the global
`last_fetch` only moves forward. -/
theorem claim_C5_monotonic :
    (∀ (fc : HttpResult) (issue : Issue) (label : String) (md : Metadata)
       (e e' : IssueMeta),
       lookupEntry md.issues (label ++ "/" ++ toString issue.number) = some e →
       lookupEntry (process_issue fc issue label md).1.issues
           (label ++ "/" ++ toString issue.number) = some e' →
       e' = e ∨ (pyStrLe e.updated_at e'.updated_at = true ∧
         e'.updated_at ≠ e.updated_at)) ∧
    (∀ (file : Option Metadata) (labels : List (String × List PageResult))
       (now : String) (r : FetchRun) (md' : Metadata),
       mainRun file labels now = some r →
       r.storeFileAfter = some md' →
       pyStrLe (load_metadata file).last_fetch now = true →
       pyStrLe (load_metadata file).last_fetch md'.last_fetch = true ∧
         storeLe (load_metadata file) md') := by
  constructor
  · intro fc issue label md e e' h1 h2
    by_cases hs : skipCheck issue label md
    · left
      simp only [process_issue, hs, if_true] at h2
      rw [h1] at h2
      exact (Option.some.inj h2).symm
    · right
      have hsf : skipCheck issue label md = false := by simpa using hs
      have h2' : lookupEntry
          (insertEntry md.issues (label ++ "/" ++ toString issue.number)
            ⟨issue.updated_at, issueDirectory issue label⟩)
          (label ++ "/" ++ toString issue.number) = some e' := by
        rw [process_issue_md fc issue label md hsf] at h2
        exact h2
      rw [lookupEntry_insert_self] at h2'
      obtain rfl : IssueMeta.mk issue.updated_at (issueDirectory issue label) = e' :=
        Option.some.inj h2'
      have hle : pyStrLe issue.updated_at e.updated_at = false := by
        have := hsf
        unfold skipCheck at this
        rw [h1] at this
        simpa using this
      exact ⟨pyStrLe_total _ _ hle, pyStrLe_ne _ _ hle⟩
  · intro file labels now r md' h1 h2 h3
    unfold mainRun at h1
    split at h1
    · exact absurd h1 (by simp)
    · rename_i w hf
      obtain rfl : FetchRun.mk file true w = r := Option.some.inj h1
      have hfile : file = some md' := h2
      subst hfile
      exact ⟨pyStrLe_refl _, storeLe_refl _⟩
    · rename_i md1 w n hf
      obtain rfl : FetchRun.mk (some { md1 with last_fetch := now }) false w = r :=
        Option.some.inj h1
      obtain rfl : Metadata.mk now md1.issues = md' := Option.some.inj h2
      refine ⟨h3, ?_⟩
      intro k e he
      obtain ⟨e2, hl, hle⟩ := fetchLabels_storeLe labels (load_metadata file)
        md1 w n hf k e he
      exact ⟨e2, hl, hle⟩

def c5Meta : Metadata :=
  ⟨"2024-01-01T00:00:00Z", [("faro/1", ⟨"2024-01-01T00:00:00Z", "faro/x/1"⟩)]⟩

def c5Issue : Issue := ⟨1, "[x] t", "2024-01-02T00:00:00Z", 0, "u"⟩

/-- Witness for claim C5 at concrete inputs: a strict overwrite by
`process_issue`, and the global watermark of a concrete successful run. -/
theorem claim_C5_witness :
    ((⟨"2024-01-02T00:00:00Z", "faro/x/1"⟩ : IssueMeta) =
        ⟨"2024-01-01T00:00:00Z", "faro/x/1"⟩ ∨
      (pyStrLe "2024-01-01T00:00:00Z" "2024-01-02T00:00:00Z" = true ∧
        ("2024-01-02T00:00:00Z" : String) ≠ "2024-01-01T00:00:00Z")) ∧
      pyStrLe (load_metadata none).last_fetch
        (Metadata.mk "2024-06-01T00:00:00Z" []).last_fetch = true :=
  ⟨claim_C5_monotonic.1 (.ok []) c5Issue "faro" c5Meta
      ⟨"2024-01-01T00:00:00Z", "faro/x/1"⟩ ⟨"2024-01-02T00:00:00Z", "faro/x/1"⟩
      (by decide) (by decide),
    (claim_C5_monotonic.2 none [("faro", [.ok []])] "2024-06-01T00:00:00Z"
      ⟨some ⟨"2024-06-01T00:00:00Z", []⟩, false, []⟩ ⟨"2024-06-01T00:00:00Z", []⟩
      (by decide) (by decide) (by decide)).1⟩

/-- Claim C10: the fetcher's incrementality check compares `updated_at`
values as plain strings.  For every pair of timestamps in the fixed wire
format `YYYY-MM-DDTHH:MM:SSZ`, Python's lexicographic string order coincides
with chronological order (the field-lexicographic `timeKey`); consequently
the skip decision of `process_issue` is chronologically correct exactly
under that fixed-format precondition. -/
theorem claim_C10_lex_is_chronological :
    (∀ ya ma da hra na sa yb mb db hrb nb sb : Nat,
       ya < 10000 → ma ≤ 12 → da ≤ 31 → hra ≤ 23 → na ≤ 59 → sa ≤ 59 →
       yb < 10000 → mb ≤ 12 → db ≤ 31 → hrb ≤ 23 → nb ≤ 59 → sb ≤ 59 →
       pyStrLe (wireFormat ya ma da hra na sa) (wireFormat yb mb db hrb nb sb) =
         decide (timeKey ya ma da hra na sa ≤ timeKey yb mb db hrb nb sb)) ∧
    (∀ (issue : Issue) (label : String) (md : Metadata) (e : IssueMeta)
       (ya ma da hra na sa yb mb db hrb nb sb : Nat),
       lookupEntry md.issues (label ++ "/" ++ toString issue.number) = some e →
       issue.updated_at = wireFormat ya ma da hra na sa →
       e.updated_at = wireFormat yb mb db hrb nb sb →
       ya < 10000 → ma ≤ 12 → da ≤ 31 → hra ≤ 23 → na ≤ 59 → sa ≤ 59 →
       yb < 10000 → mb ≤ 12 → db ≤ 31 → hrb ≤ 23 → nb ≤ 59 → sb ≤ 59 →
       skipCheck issue label md =
         decide (timeKey ya ma da hra na sa ≤ timeKey yb mb db hrb nb sb)) := by
  constructor
  · intro ya ma da hra na sa yb mb db hrb nb sb b1 b2 b3 b4 b5 b6 c1 c2 c3 c4 c5 c6
    exact pyStrLe_wireFormat ya ma da hra na sa yb mb db hrb nb sb
      b1 (by omega) (by omega) (by omega) (by omega) (by omega)
      c1 (by omega) (by omega) (by omega) (by omega) (by omega)
  · intro issue label md e ya ma da hra na sa yb mb db hrb nb sb
      hl hu he b1 b2 b3 b4 b5 b6 c1 c2 c3 c4 c5 c6
    unfold skipCheck
    rw [hl, hu]
    show pyStrLe (wireFormat ya ma da hra na sa) e.updated_at = _
    rw [he]
    exact pyStrLe_wireFormat ya ma da hra na sa yb mb db hrb nb sb
      b1 (by omega) (by omega) (by omega) (by omega) (by omega)
      c1 (by omega) (by omega) (by omega) (by omega) (by omega)

def c10Meta : Metadata :=
  ⟨"1970-01-01T00:00:00Z", [("faro/2", ⟨wireFormat 2024 12 31 23 59 59, "faro/y/2"⟩)]⟩

def c10Issue : Issue := ⟨2, "[y] t", wireFormat 2025 1 1 0 0 0, 0, "u"⟩

/-- Witness for claim C10 at concrete timestamps `2024-12-31T23:59:59Z` and
`2025-01-01T00:00:00Z`. -/
theorem claim_C10_witness :
    (pyStrLe (wireFormat 2024 12 31 23 59 59) (wireFormat 2025 1 1 0 0 0) =
        decide (timeKey 2024 12 31 23 59 59 ≤ timeKey 2025 1 1 0 0 0)) ∧
      skipCheck c10Issue "faro" c10Meta =
        decide (timeKey 2025 1 1 0 0 0 ≤ timeKey 2024 12 31 23 59 59) :=
  ⟨claim_C10_lex_is_chronological.1 2024 12 31 23 59 59 2025 1 1 0 0 0
      (by decide) (by decide) (by decide) (by decide) (by decide) (by decide)
      (by decide) (by decide) (by decide) (by decide) (by decide) (by decide),
    claim_C10_lex_is_chronological.2 c10Issue "faro" c10Meta
      ⟨wireFormat 2024 12 31 23 59 59, "faro/y/2"⟩
      2025 1 1 0 0 0 2024 12 31 23 59 59
      (by decide) rfl rfl
      (by decide) (by decide) (by decide) (by decide) (by decide) (by decide)
      (by decide) (by decide) (by decide) (by decide) (by decide) (by decide)⟩

/-- Claim C4: `compose_thread` takes its silent skip branch (no output
write, no store mutation — the `skipped` result carries neither) if and only
if the store has an entry for the directory equal to the freshly computed
pair of content hashes; and the skip decision depends only on the raw bytes
of `issue.json` and `comments.json`, not on any parsed field such as a
timestamp. -/
theorem claim_C4_skip_iff_hashes (hash : List Nat → String) (directory : String)
    (files : IssueDir) (md : ComposeStore) :
    (compose_thread hash directory files md = .skipped ↔
       lookupEntry md directory =
         some (currentHashes hash files.issueBytes (files.comments.map Prod.fst))) ∧
    (∀ files' : IssueDir, files'.issueBytes = files.issueBytes →
       files'.comments.map Prod.fst = files.comments.map Prod.fst →
       (compose_thread hash directory files' md = .skipped ↔
         compose_thread hash directory files md = .skipped)) := by
  constructor
  · exact compose_skipped_iff hash directory files md
  · intro files' hb hc
    rw [compose_skipped_iff, compose_skipped_iff]
    unfold dirHashes currentHashes
    rw [hb, hc]

def c7Issue : IssueRec :=
  ⟨"Bug", ⟨"alice"⟩, "2024-01-01T00:00:00Z", "open", [⟨"faro"⟩],
   some "Steps to reproduce"⟩

def c4Files : IssueDir := ⟨[0, 1], c7Issue, none⟩

/-- Same bytes as `c4Files` but a different parsed `created_at` timestamp:
the skip decision cannot tell them apart. -/
def c4FilesOther : IssueDir :=
  ⟨[0, 1], ⟨"Bug", ⟨"alice"⟩, "2031-07-19T08:09:10Z", "open", [⟨"faro"⟩],
    some "Steps to reproduce"⟩, none⟩

def c4Store : ComposeStore := [("faro/s/1", ⟨"h", ""⟩)]

/-- Witness for claim C4 at a concrete store whose recorded pair matches the
fresh pair, and a second directory content equal in bytes but different in
parsed timestamp. -/
theorem claim_C4_witness :
    (compose_thread (fun _ => "h") "faro/s/1" c4Files c4Store = .skipped ↔
       lookupEntry c4Store "faro/s/1" =
         some (currentHashes (fun _ => "h") c4Files.issueBytes
           (c4Files.comments.map Prod.fst))) ∧
      (compose_thread (fun _ => "h") "faro/s/1" c4FilesOther c4Store = .skipped ↔
        compose_thread (fun _ => "h") "faro/s/1" c4Files c4Store = .skipped) :=
  ⟨(claim_C4_skip_iff_hashes (fun _ => "h") "faro/s/1" c4Files c4Store).1,
   (claim_C4_skip_iff_hashes (fun _ => "h") "faro/s/1" c4Files c4Store).2
     c4FilesOther rfl rfl⟩

set_option maxRecDepth 10000 in
/-- Claim C7: rendering is a pure function of the records (a Lean function
here), and on the record with title `Bug`, author `alice`, creation
timestamp `2024-01-01T00:00:00Z`, state `open`, labels `["faro"]`, body
`Steps to reproduce` and no comments file, the thread lines are exactly the
four header lines, the separator, the `INITIAL POST:` heading with its rule
and the body — and no `COMMENTS:` section appears. -/
theorem claim_C7_render_deterministic :
    renderLines c7Issue none =
        [some "Title: Bug",
         some "Created by: alice on 2024-01-01 00:00:00 UTC",
         some "State: open",
         some "Labels: faro",
         some ("\n" ++ eq80 ++ "\n"),
         some "INITIAL POST:",
         some dash80,
         some "Steps to reproduce"] ∧
      pyJoin "\n\n" (renderLines c7Issue none) =
        some ("Title: Bug\n\nCreated by: alice on 2024-01-01 00:00:00 UTC\n\n" ++
          "State: open\n\nLabels: faro\n\n\n" ++ eq80 ++
          "\n\n\nINITIAL POST:\n\n" ++ dash80 ++ "\n\nSteps to reproduce") ∧
      some "COMMENTS:" ∉ renderLines c7Issue none := by
  refine ⟨?_, ?_, ?_⟩ <;> decide

/-- Claim C9: for an issue record whose `body` is JSON `null`, and a store
state that does not short-circuit into the skip branch, `compose_thread`
fails with an error and composes nothing: the render list contains the null
body, and the final join is only defined when every element is a string. -/
theorem claim_C9_null_body_error (hash : List Nat → String) (directory : String)
    (files : IssueDir) (md : ComposeStore)
    (h1 : files.issue.body = none)
    (h2 : lookupEntry md directory ≠ some (dirHashes hash files)) :
    compose_thread hash directory files md = .error := by
  have hskip : (match lookupEntry md directory with
      | some old => decide (old = dirHashes hash files)
      | none => false) = false := by
    cases hl : lookupEntry md directory with
    | none => rfl
    | some old =>
      have hne : old ≠ dirHashes hash files := fun hee => h2 (by rw [hl, hee])
      simp [hne]
  have hmem : (none : Option String) ∈
      renderLines files.issue (files.comments.map Prod.snd) := by
    simp only [renderLines, List.mem_append, List.mem_cons]
    left
    rw [← h1]
    simp
  have hjoin : pyJoin "\n\n"
      (renderLines files.issue (files.comments.map Prod.snd)) = none := by
    unfold pyJoin
    rw [seqParts_eq_none _ hmem]
    rfl
  simp only [compose_thread]
  rw [hskip]
  simp [hjoin]

def c9Files : IssueDir :=
  ⟨[3], ⟨"Bug", ⟨"alice"⟩, "2024-01-01T00:00:00Z", "open", [⟨"faro"⟩], none⟩, none⟩

/-- Witness for claim C9 at a concrete record with a null body. -/
theorem claim_C9_witness :
    c9Files.issue.body = none ∧
      compose_thread (fun _ => "h") "faro/s/3" c9Files [] = .error :=
  ⟨rfl, claim_C9_null_body_error (fun _ => "h") "faro/s/3" c9Files [] rfl
    (by decide)⟩

def c3Files : IssueDir := ⟨[5], c7Issue, none⟩

def c3Disk : Disk := [⟨"custom", [⟨"s", true, [⟨"1", true, some c3Files⟩]⟩]⟩]

/-- Counterexample to claim C3: with the configured label set `{"custom"}`
(a perfectly valid `VALID_LABELS` value) and a disk holding the label root
`custom/s/1` with an issue record, the composer invokes `compose_thread` on
nothing, writes nothing and processes zero directories — the walk is over
the hardcoded roots `faro` and `app-o11y`, not over the configured label
set, so a configured label root IS skipped. -/
theorem claim_C3_counterexample :
    get_valid_labels (some "custom") = some ["custom"] ∧
      (process_all_threads (fun _ => "h") c3Disk none).checked = [] ∧
      (process_all_threads (fun _ => "h") c3Disk none).writes = [] ∧
      (process_all_threads (fun _ => "h") c3Disk none).processed = 0 := by
  refine ⟨?_, ?_, ?_, ?_⟩ <;> decide

/-- Claim C3, amended: the composer walks only the hardcoded label roots
`faro` and `app-o11y` (skipping any of the two that does not exist on disk),
not the configured label set; for a run that completes without an exception
it invokes composition exactly on the issue directories under those roots
that are directories containing an issue record, in walk order. -/
theorem claim_C3_walk_hardcoded (hash : List Nat → String) (disk : Disk)
    (file : Option ComposeStore)
    (h : (process_all_threads hash disk file).aborted = false) :
    (process_all_threads hash disk file).checked =
        (composeTargetPairs disk).map Prod.fst ∧
      (process_all_threads hash disk file).processed =
        (composeTargetPairs disk).length := by
  rw [process_all_threads_eq] at h ⊢
  exact runList_checked hash (composeTargetPairs disk)
    (load_compose_metadata file) h

def c3wDisk : Disk :=
  [⟨"faro", [⟨"s", true, [⟨"1", true, some c3Files⟩]⟩]⟩,
   ⟨"custom", [⟨"s", true, [⟨"2", true, some c3Files⟩]⟩]⟩]

/-- Witness for the amended claim C3: a completed run over a disk holding a
`faro` root and a `custom` root checks exactly the directory under `faro`. -/
theorem claim_C3_witness :
    (process_all_threads (fun _ => "h") c3wDisk none).aborted = false ∧
      (process_all_threads (fun _ => "h") c3wDisk none).checked =
        (composeTargetPairs c3wDisk).map Prod.fst ∧
      (process_all_threads (fun _ => "h") c3wDisk none).processed =
        (composeTargetPairs c3wDisk).length :=
  ⟨by decide,
   (claim_C3_walk_hardcoded (fun _ => "h") c3wDisk none (by decide)).1,
   (claim_C3_walk_hardcoded (fun _ => "h") c3wDisk none (by decide)).2⟩

/-- Claim C6: the composer is idempotent.  If a run over a disk (whose
qualifying issue-directory paths are distinct, as `os.listdir` guarantees)
completes without an exception, then a second run over the same unchanged
disk, starting from the store file the first run saved, performs zero
`thread.md` writes, leaves the content-hash store file unchanged and also
completes. -/
theorem claim_C6_idempotent (hash : List Nat → String) (disk : Disk)
    (file : Option ComposeStore)
    (hnd : ((composeTargetPairs disk).map Prod.fst).Nodup)
    (h1 : (process_all_threads hash disk file).aborted = false) :
    (process_all_threads hash disk
        (process_all_threads hash disk file).storeFileAfter).writes = [] ∧
      (process_all_threads hash disk
          (process_all_threads hash disk file).storeFileAfter).storeFileAfter =
        (process_all_threads hash disk file).storeFileAfter ∧
      (process_all_threads hash disk
          (process_all_threads hash disk file).storeFileAfter).aborted = false := by
  rw [process_all_threads_eq] at h1
  have h1' : (runList hash (composeTargetPairs disk)
      (load_compose_metadata file)).aborted = false := h1
  have hall := runList_complete_lookup hash (composeTargetPairs disk)
    (load_compose_metadata file) hnd h1'
  have hsf1 : (process_all_threads hash disk file).storeFileAfter =
      some (runList hash (composeTargetPairs disk) (load_compose_metadata file)).md := by
    rw [process_all_threads_eq]
    show (if (runList hash (composeTargetPairs disk)
          (load_compose_metadata file)).aborted = true then file
        else some (runList hash (composeTargetPairs disk)
          (load_compose_metadata file)).md) = _
    rw [h1']
    simp
  have hskipall := runList_all_skip hash (composeTargetPairs disk)
    (runList hash (composeTargetPairs disk) (load_compose_metadata file)).md hall
  rw [hsf1, process_all_threads_eq]
  have hload : load_compose_metadata
      (some (runList hash (composeTargetPairs disk) (load_compose_metadata file)).md) =
      (runList hash (composeTargetPairs disk) (load_compose_metadata file)).md := rfl
  rw [hload, hskipall]
  refine ⟨rfl, ?_, rfl⟩
  simp

def c6Disk : Disk := [⟨"faro", [⟨"s", true, [⟨"1", true, some c3Files⟩]⟩]⟩]

/-- Witness for claim C6 at a concrete one-directory disk. -/
theorem claim_C6_witness :
    ((composeTargetPairs c6Disk).map Prod.fst).Nodup ∧
      (process_all_threads (fun _ => "h") c6Disk none).aborted = false ∧
      (process_all_threads (fun _ => "h") c6Disk
          (process_all_threads (fun _ => "h") c6Disk none).storeFileAfter).writes =
        [] ∧
      (process_all_threads (fun _ => "h") c6Disk
          (process_all_threads (fun _ => "h") c6Disk none).storeFileAfter).storeFileAfter =
        (process_all_threads (fun _ => "h") c6Disk none).storeFileAfter :=
  ⟨by decide, by decide,
    (claim_C6_idempotent (fun _ => "h") c6Disk none (by decide) (by decide)).1,
    (claim_C6_idempotent (fun _ => "h") c6Disk none (by decide) (by decide)).2.1⟩
